import Mathlib

/-!
Shallow embedding of the context subsystem of the voravia frontend:
the pure eligibility and clamping rules (src/context/contextRules.ts),
the app-context storage adapter with its legacy-scope normalizer
(src/storage of the app context), and the active-context storage adapter.

JavaScript conventions are modelled explicitly:
an optional string field that may be a string, null or undefined becomes
an Option String (null and undefined are both falsy and collapse to none);
double-bang truthiness of a string is nonemptiness; the storage cell for a
key is modelled as an inductive describing what getItem plus JSON.parse can
yield: absent (null or the empty string, both falsy), a string on which
JSON.parse (or the subsequent field access) throws, or a parsed record with
optional fields.
-/

/-- The three context scopes of contextRules.ts. -/
inductive ContextScope where
  | individual
  | family
  | workplace
deriving DecidableEq, Repr

/-- MeUser from contextRules.ts: id plus optional familyId and corporateId
(string or null or undefined; the latter two collapse to none). -/
structure MeUser where
  id : String
  familyId : Option String := none
  corporateId : Option String := none
deriving DecidableEq, Repr

/-- ContextGateOpts from contextRules.ts: an optional hasFamilyGroup flag. -/
structure ContextGateOpts where
  hasFamilyGroup : Option Bool := none
deriving DecidableEq, Repr

/-- JavaScript double-bang truthiness of an optional string:
true exactly for a present, non-empty string. -/
def truthyStr : Option String → Bool
  | some s => !s.isEmpty
  | none => false

/-- JavaScript double-bang truthiness of an optional boolean. -/
def truthyBool : Option Bool → Bool
  | some b => b
  | none => false

/-- ContextEligibility from contextRules.ts: a record of one boolean per scope. -/
structure ContextEligibility where
  individual : Bool
  family : Bool
  workplace : Bool
deriving DecidableEq, Repr

/-- CONTEXT_ORDER from contextRules.ts. -/
def CONTEXT_ORDER : List ContextScope :=
  [ContextScope.individual, ContextScope.family, ContextScope.workplace]

/-- isContextAvailable from contextRules.ts. The individual branch returns
true unconditionally; family checks truthiness of the optional familyId or
of the hasFamilyGroup flag; workplace checks truthiness of corporateId. -/
def isContextAvailable (scope : ContextScope) (me : Option MeUser)
    (opts : Option ContextGateOpts) : Bool :=
  match scope with
  | .individual => true
  | .family =>
      truthyStr (me.bind MeUser.familyId) ||
        truthyBool (opts.bind ContextGateOpts.hasFamilyGroup)
  | .workplace => truthyStr (me.bind MeUser.corporateId)

/-- clampContext from contextRules.ts. A defined current scope (every scope
string is truthy) that is available is returned unchanged; otherwise the
loop over CONTEXT_ORDER returns the first available scope, and the trailing
return yields individual if the loop finds none. -/
def clampContext (current : Option ContextScope) (me : Option MeUser)
    (opts : Option ContextGateOpts) : ContextScope :=
  match current with
  | some c =>
      if isContextAvailable c me opts then c
      else (CONTEXT_ORDER.find? (fun s => isContextAvailable s me opts)).getD
        ContextScope.individual
  | none =>
      (CONTEXT_ORDER.find? (fun s => isContextAvailable s me opts)).getD
        ContextScope.individual

/-- getContextEligibility from contextRules.ts. -/
def getContextEligibility (me : Option MeUser) (opts : Option ContextGateOpts) :
    ContextEligibility :=
  { individual := isContextAvailable .individual me opts
    family := isContextAvailable .family me opts
    workplace := isContextAvailable .workplace me opts }

/-- Indexing of a ContextEligibility record by a scope, as the TypeScript
filter callback does with the bracket access on the eligibility record. -/
def eligLookup (e : ContextEligibility) : ContextScope → Bool
  | .individual => e.individual
  | .family => e.family
  | .workplace => e.workplace

/-- getAvailableContexts from contextRules.ts: filter CONTEXT_ORDER by the
eligibility record. -/
def getAvailableContexts (e : ContextEligibility) : List ContextScope :=
  CONTEXT_ORDER.filter (eligLookup e)

/-- A JavaScript value as it can appear in the segment field of the parsed
app-context record: a string, undefined (field absent), or any other value.
A null segment is folded into the other constructor: at the call site the
nullish-coalescing operator sends null to the default segment string, which
the normalizer maps to individual, the same result the default switch branch
gives every non-string value. -/
inductive JsVal where
  | str (s : String)
  | undef
  | other
deriving DecidableEq, Repr

/-- normalizeSegment from the app-context storage module: the switch over
the raw segment value, written as the equivalent chain of equality tests.
Undefined and every non-string value fall to the default branch. -/
def normalizeSegment : JsVal → ContextScope
  | .str s =>
      if s = "individual" then .individual
      else if s = "family" then .family
      else if s = "workplace" then .workplace
      else if s = "Individual" then .individual
      else if s = "Family" then .family
      else if s = "Workplace" then .workplace
      else if s = "you" then .individual
      else if s = "self" then .individual
      else if s = "corporate" then .workplace
      else if s = "insurance" then .individual
      else .individual
  | .undef => .individual
  | .other => .individual

/-- AppContextState from the app-context storage module. -/
structure AppContextState where
  segment : ContextScope
  currentUserId : String
deriving DecidableEq, Repr

/-- The DEFAULTS record of the app-context storage module. -/
def DEFAULTS : AppContextState :=
  { segment := .individual, currentUserId := "head" }

/-- The string spelling of a scope, as JSON serialization writes it. -/
def scopeString : ContextScope → String
  | .individual => "individual"
  | .family => "family"
  | .workplace => "workplace"

/-- The storage cell under the app-context key, as seen through getItem and
JSON.parse: absent covers a null or empty (falsy) raw string; malformed
covers a raw string on which JSON.parse or the field access throws (the
catch swallows it); record carries the parsed segment and currentUserId
fields, each possibly absent. -/
inductive AppCell where
  | absent
  | malformed
  | record (segment : JsVal) (currentUserId : Option String)
deriving DecidableEq, Repr

/-- The cell content produced by JSON.stringify of an AppContextState, as it
reads back through JSON.parse. -/
def stringifyApp (st : AppContextState) : AppCell :=
  .record (.str (scopeString st.segment)) (some st.currentUserId)

/-- getAppContext from the app-context storage module, as a function from
the storage cell to the returned record and the cell after the call. On a
successfully parsed record it normalizes the segment (an undefined segment
is replaced by the default segment string by the nullish-coalescing
operator) and defaults the user id, writing nothing; on an absent or
malformed cell it writes the serialized DEFAULTS and returns DEFAULTS. -/
def getAppContext : AppCell → AppContextState × AppCell
  | .absent => (DEFAULTS, stringifyApp DEFAULTS)
  | .malformed => (DEFAULTS, stringifyApp DEFAULTS)
  | .record seg uid =>
      ({ segment := normalizeSegment
            (match seg with | .undef => .str (scopeString DEFAULTS.segment) | v => v)
         currentUserId := uid.getD DEFAULTS.currentUserId },
       .record seg uid)

/-- setAppContext from the app-context storage module: overwrite the cell
with the serialization of the next record, unconditionally. -/
def setAppContext (next : AppContextState) (_cell : AppCell) : AppCell :=
  stringifyApp next

/-- ActiveContext from the active-context storage module: individual with no
fields, or family and corporate each tagged with an id and a name. The id
field holds whatever string the stored JSON carried, including the empty
string, because the load path performs no validation. -/
inductive ActiveContext where
  | individual
  | family (id : String) (name : String)
  | corporate (id : String) (name : String)
deriving DecidableEq, Repr

/-- The data-model invariant of the spec: a family or corporate context
carries a non-empty id; individual carries none. -/
def activeInvariant : ActiveContext → Bool
  | .individual => true
  | .family i _ => !i.isEmpty
  | .corporate i _ => !i.isEmpty

/-- The storage cell under the active-context key: absent raw value,
a raw string JSON.parse throws on, or a parsed value, which the code casts
to ActiveContext without any validation. -/
inductive ActiveCell where
  | absent
  | malformed
  | value (ctx : ActiveContext)
deriving DecidableEq, Repr

/-- getActiveContext from the active-context storage module: individual when
the raw value is absent or unparsable, otherwise the parsed value as-is
(an unchecked cast in the source). -/
def getActiveContext : ActiveCell → ActiveContext
  | .absent => .individual
  | .malformed => .individual
  | .value ctx => ctx

/-- setActiveContext from the active-context storage module: overwrite the
cell with the serialization of the given context. -/
def setActiveContext (ctx : ActiveContext) (_cell : ActiveCell) : ActiveCell :=
  .value ctx

/-! Helper lemmas shared by several theorems. -/

/-- The first scope of CONTEXT_ORDER satisfying isContextAvailable is always
individual, because individual is always available and listed first. -/
theorem find?_CONTEXT_ORDER (me : Option MeUser) (opts : Option ContextGateOpts) :
    CONTEXT_ORDER.find? (fun s => isContextAvailable s me opts) =
      some ContextScope.individual := rfl

/-- The scope clampContext returns is always available. -/
theorem clampContext_available (current : Option ContextScope) (me : Option MeUser)
    (opts : Option ContextGateOpts) :
    isContextAvailable (clampContext current me opts) me opts = true := by
  cases current with
  | none => rfl
  | some c =>
      cases h : isContextAvailable c me opts with
      | true =>
          have hc : clampContext (some c) me opts = c := by
            simp [clampContext, h]
          rw [hc]
          exact h
      | false =>
          have hc : clampContext (some c) me opts =
              (CONTEXT_ORDER.find? (fun s => isContextAvailable s me opts)).getD
                ContextScope.individual := by
            simp [clampContext, h]
          rw [hc]
          rfl

/-- Truthiness of an optional string holds exactly for a present non-empty
string. -/
theorem truthyStr_eq_true (o : Option String) :
    truthyStr o = true ↔ ∃ s : String, o = some s ∧ s ≠ "" := by
  cases o with
  | none => simp [truthyStr]
  | some s =>
      have hts : truthyStr (some s) = !s.isEmpty := rfl
      rw [hts]
      cases hb : s.isEmpty with
      | true => simp [(String.isEmpty_iff s).mp hb]
      | false =>
          have hs : s ≠ "" := by
            intro h
            rw [h] at hb
            exact absurd hb (by decide)
          simp [hs]

/-- Truthiness of an optional boolean holds exactly for some true. -/
theorem truthyBool_eq_true (o : Option Bool) :
    truthyBool o = true ↔ o = some true := by
  cases o with
  | none => simp [truthyBool]
  | some b => cases b <;> simp [truthyBool]

/-! Theorems for the claims. -/

/-- C1: clampContext returns the desired scope unchanged when it is defined
and available; when it is undefined or unavailable it returns the first
scope in declared order for which isContextAvailable holds, and that first
scope is always individual, so clampContext is total with individual as the
guaranteed terminal fallback; in particular clamping an undefined scope
under a no-grants actor and empty options yields individual. -/
theorem clampContext_spec (current : Option ContextScope) (me : Option MeUser)
    (opts : Option ContextGateOpts) :
    (∀ c, current = some c → isContextAvailable c me opts = true →
        clampContext current me opts = c)
    ∧ CONTEXT_ORDER.find? (fun s => isContextAvailable s me opts) =
        some ContextScope.individual
    ∧ ((∀ c, current = some c → isContextAvailable c me opts = false) →
        clampContext current me opts = ContextScope.individual)
    ∧ clampContext none (some { id := "head" }) (some {}) =
        ContextScope.individual := by
  refine ⟨?_, find?_CONTEXT_ORDER me opts, ?_, rfl⟩
  · intro c hc hav
    subst hc
    simp [clampContext, hav]
  · intro hun
    cases current with
    | none => simp [clampContext, find?_CONTEXT_ORDER]
    | some c => simp [clampContext, hun c rfl, find?_CONTEXT_ORDER]

/-- Witness for C1 at concrete inputs: an available desired scope is kept,
and an unavailable one falls back to individual. -/
theorem clampContext_spec_witness :
    clampContext (some .workplace) (some { id := "u", corporateId := some "C1" })
        none = ContextScope.workplace
    ∧ clampContext (some .family) (some { id := "u" }) none =
        ContextScope.individual := by
  constructor
  · exact (clampContext_spec (some .workplace)
      (some { id := "u", corporateId := some "C1" }) none).1 .workplace rfl (by decide)
  · refine (clampContext_spec (some .family) (some { id := "u" }) none).2.2.1 ?_
    intro c hc
    cases hc
    decide

/-- C2: family is available exactly when the actor carries a non-empty
familyId or the options carry hasFamilyGroup true; workplace is available
exactly when the actor carries a non-empty corporateId; an absent actor and
absent options grant neither. -/
theorem isContextAvailable_spec (me : Option MeUser) (opts : Option ContextGateOpts) :
    (isContextAvailable .family me opts = true ↔
        (∃ s : String, me.bind MeUser.familyId = some s ∧ s ≠ "") ∨
          opts.bind ContextGateOpts.hasFamilyGroup = some true)
    ∧ (isContextAvailable .workplace me opts = true ↔
        ∃ s : String, me.bind MeUser.corporateId = some s ∧ s ≠ "")
    ∧ isContextAvailable .family none none = false
    ∧ isContextAvailable .workplace none none = false := by
  refine ⟨?_, ?_, rfl, rfl⟩
  · simp [isContextAvailable, truthyStr_eq_true, truthyBool_eq_true]
  · simp [isContextAvailable, truthyStr_eq_true]

/-- Witness for C2 at the concrete examples of the spec: familyId alone
unlocks family, the group flag alone unlocks family, and with neither the
family scope is unavailable. -/
theorem isContextAvailable_spec_witness :
    isContextAvailable .family (some { id := "u", familyId := some "F1" }) (some {}) = true
    ∧ isContextAvailable .family (some { id := "u" }) (some { hasFamilyGroup := some true }) = true
    ∧ isContextAvailable .family none none = false := by
  refine ⟨?_, ?_, ?_⟩
  · exact (isContextAvailable_spec (some { id := "u", familyId := some "F1" })
      (some {})).1.mpr (Or.inl ⟨"F1", rfl, by decide⟩)
  · exact (isContextAvailable_spec (some { id := "u" })
      (some { hasFamilyGroup := some true })).1.mpr (Or.inr rfl)
  · exact (isContextAvailable_spec none none).2.2.1

/-- C3: clampContext is idempotent: clamping the result of a clamp under the
same actor and options returns it unchanged, for every desired scope
including the undefined one. -/
theorem clampContext_idempotent (s : Option ContextScope) (a : Option MeUser)
    (o : Option ContextGateOpts) :
    clampContext (some (clampContext s a o)) a o = clampContext s a o := by
  have h := clampContext_available s a o
  generalize hr : clampContext s a o = r
  rw [hr] at h
  simp [clampContext, h]

/-- C4: individual is available for every actor and options including absent
ones, and the available-contexts list derived from the eligibility record
contains exactly the scopes marked true, is ordered as a sublist of the
declared order, and is non-empty with individual first. -/
theorem getAvailableContexts_spec (me : Option MeUser) (opts : Option ContextGateOpts) :
    isContextAvailable .individual me opts = true
    ∧ (∀ s : ContextScope,
        s ∈ getAvailableContexts (getContextEligibility me opts) ↔
          eligLookup (getContextEligibility me opts) s = true)
    ∧ (getAvailableContexts (getContextEligibility me opts)).Sublist CONTEXT_ORDER
    ∧ (getAvailableContexts (getContextEligibility me opts)).head? =
        some ContextScope.individual := by
  have hi : isContextAvailable .individual me opts = true := rfl
  refine ⟨rfl, ?_, List.filter_sublist _, ?_⟩
  · intro s
    cases hf : isContextAvailable .family me opts <;>
      cases hw : isContextAvailable .workplace me opts <;>
        cases s <;>
          simp [getAvailableContexts, getContextEligibility, eligLookup,
            CONTEXT_ORDER, hi, hf, hw]
  · cases hf : isContextAvailable .family me opts <;>
      cases hw : isContextAvailable .workplace me opts <;>
        simp [getAvailableContexts, getContextEligibility, eligLookup,
          CONTEXT_ORDER, hi, hf, hw]

/-- Witness for C4 at absent actor and options: individual is in the list,
and the list is exactly the individual singleton headed by individual. -/
theorem getAvailableContexts_spec_witness :
    ContextScope.individual ∈ getAvailableContexts (getContextEligibility none none)
    ∧ (getAvailableContexts (getContextEligibility none none)).head? =
        some ContextScope.individual :=
  ⟨((getAvailableContexts_spec none none).2.1 .individual).mpr rfl,
    (getAvailableContexts_spec none none).2.2.2⟩

/-- C5: the legacy normalizer maps the capitalized Family spelling to
family, the legacy corporate spelling to workplace, the removed insurance
scope to individual, undefined to individual, and every string outside the
recognized table to individual. -/
theorem normalizeSegment_spec :
    normalizeSegment (.str "Family") = .family
    ∧ normalizeSegment (.str "corporate") = .workplace
    ∧ normalizeSegment (.str "insurance") = .individual
    ∧ normalizeSegment .undef = .individual
    ∧ ∀ s : String,
        s ∉ (["individual", "family", "workplace", "Individual", "Family",
          "Workplace", "you", "self", "corporate", "insurance"] : List String) →
        normalizeSegment (.str s) = .individual := by
  refine ⟨rfl, rfl, rfl, rfl, ?_⟩
  intro s h
  simp only [List.mem_cons, List.not_mem_nil, or_false, not_or] at h
  obtain ⟨h1, h2, h3, h4, h5, h6, h7, h8, h9, h10⟩ := h
  simp [normalizeSegment, h1, h2, h3, h4, h5, h6, h7, h8, h9, h10]

/-- Witness for C5 at a concrete unrecognized string. -/
theorem normalizeSegment_spec_witness :
    normalizeSegment (.str "garbage") = .individual :=
  normalizeSegment_spec.2.2.2.2 "garbage" (by decide)

/-- C6: on an absent or unparsable cell, the load returns the hard-coded
default record and writes its serialization back (write-on-read), and a
subsequent load of the written cell returns the same default record without
raising. -/
theorem getAppContext_default_spec :
    (getAppContext .absent).1 = DEFAULTS
    ∧ (getAppContext .malformed).1 = DEFAULTS
    ∧ (getAppContext .absent).2 = stringifyApp DEFAULTS
    ∧ (getAppContext .malformed).2 = stringifyApp DEFAULTS
    ∧ (getAppContext (getAppContext .absent).2).1 = DEFAULTS
    ∧ (getAppContext (getAppContext .malformed).2).1 = DEFAULTS :=
  ⟨rfl, rfl, rfl, rfl, rfl, rfl⟩

/-- C7: for the actor with id head and corporateId CORP-X under options with
hasFamilyGroup false, the eligibility record marks individual and workplace
true and family false, the available list is individual then workplace, and
clamping the family scope falls back to individual. -/
theorem endToEnd_scenario :
    getContextEligibility (some { id := "head", corporateId := some "CORP-X" })
        (some { hasFamilyGroup := some false }) =
      { individual := true, family := false, workplace := true }
    ∧ getAvailableContexts
        { individual := true, family := false, workplace := true } =
      [ContextScope.individual, ContextScope.workplace]
    ∧ clampContext (some .family) (some { id := "head", corporateId := some "CORP-X" })
        (some { hasFamilyGroup := some false }) = ContextScope.individual := by
  refine ⟨?_, rfl, ?_⟩ <;> decide

/-- C8 counterexample: a parsable stored value whose family id is empty is
returned by the load as-is, violating the invariant, because the load casts
the parsed value without validation. -/
theorem activeInvariant_counterexample :
    activeInvariant (getActiveContext (.value (.family "" "Smith"))) = false := rfl

/-- C8 amended: the invariant holds for what the load returns when the cell
is absent or unparsable, and for any cell written by the save from an
invariant-satisfying context; the load itself validates nothing, so a
pre-existing stored record with an empty id escapes the invariant. -/
theorem activeInvariant_preserved (c : ActiveContext) (cell : ActiveCell)
    (h : activeInvariant c = true) :
    activeInvariant (getActiveContext (setActiveContext c cell)) = true
    ∧ activeInvariant (getActiveContext .absent) = true
    ∧ activeInvariant (getActiveContext .malformed) = true :=
  ⟨h, rfl, rfl⟩

/-- Witness for the amended C8 at a concrete saved family context. -/
theorem activeInvariant_preserved_witness :
    activeInvariant
      (getActiveContext (setActiveContext (.family "F1" "Smith") .absent)) = true :=
  (activeInvariant_preserved (.family "F1" "Smith") .absent (by decide)).1

/-- C9: saving any well-formed record and loading it back returns exactly
that record: the normalizer is the identity on the three current scope
strings and the stored user id is preserved. -/
theorem appContext_roundtrip (next : AppContextState) (cell : AppCell) :
    (getAppContext (setAppContext next cell)).1 = next := by
  obtain ⟨seg, uid⟩ := next
  cases seg <;> rfl

/-- C10: the rules depend only on the three gating inputs: two actor and
options pairs agreeing on familyId, corporateId and hasFamilyGroup give
identical availability, eligibility, available list, and clamp results. -/
theorem gating_inputs_only (me1 me2 : Option MeUser) (o1 o2 : Option ContextGateOpts)
    (hf : me1.bind MeUser.familyId = me2.bind MeUser.familyId)
    (hc : me1.bind MeUser.corporateId = me2.bind MeUser.corporateId)
    (hg : o1.bind ContextGateOpts.hasFamilyGroup =
      o2.bind ContextGateOpts.hasFamilyGroup) :
    (∀ s, isContextAvailable s me1 o1 = isContextAvailable s me2 o2)
    ∧ getContextEligibility me1 o1 = getContextEligibility me2 o2
    ∧ getAvailableContexts (getContextEligibility me1 o1) =
        getAvailableContexts (getContextEligibility me2 o2)
    ∧ ∀ c, clampContext c me1 o1 = clampContext c me2 o2 := by
  have hA : ∀ s, isContextAvailable s me1 o1 = isContextAvailable s me2 o2 := by
    intro s
    cases s <;> simp [isContextAvailable, hf, hc, hg]
  have hE : getContextEligibility me1 o1 = getContextEligibility me2 o2 := by
    simp [getContextEligibility, hA .individual, hA .family, hA .workplace]
  have hP : (fun s => isContextAvailable s me1 o1) =
      (fun s => isContextAvailable s me2 o2) := funext hA
  refine ⟨hA, hE, by rw [hE], ?_⟩
  intro c
  cases c with
  | none => simp [clampContext, hP]
  | some c => simp [clampContext, hA c, hP]

/-- Witness for C10 at two concrete actors differing only in their id. -/
theorem gating_inputs_only_witness :
    getContextEligibility (some { id := "alice", familyId := some "F1" }) none =
      getContextEligibility (some { id := "bob", familyId := some "F1" }) none :=
  (gating_inputs_only (some { id := "alice", familyId := some "F1" })
    (some { id := "bob", familyId := some "F1" }) none none rfl rfl rfl).2.1
